import Mathlib

/-!
Verification of the extraction core of a small data-extraction application.

The source under scrutiny provides two extraction pipelines over a decoded
text buffer:

* `parsePatterns` turns a user-authored specification string
  (one `fieldName: regexBody` per line) into an ordered string-keyed record
  of compiled case-insensitive regular expressions, and
* `extractDataFromText` applies every compiled pattern to every non-blank
  line of the input, building one row per line that matched at least one
  pattern, while
* `extractDataFromCsv` treats the first non-blank line as a comma-separated
  header and zips every following line's cells against it.

The JavaScript regex engine itself (`new RegExp(source, "i")` and
`line.match(regex)`) is not part of the repository; it is abstracted here by
a `compile` parameter producing `JSRegex` values, i.e. search functions
returning the whole matched substring and the first capture group.  Concrete
`JSRegex` values used in concrete runs below model the semantics of the
specific JS regexes they are named after.  JavaScript string-keyed records
(`Record<string, string>` / `Record<string, RegExp>`) are modelled as
insertion-ordered association lists with in-place update, which is the JS
property order for non-array-index keys.
-/

/-- Result of a successful JavaScript `line.match(regex)` call: `m0` is the
whole matched substring (`match[0]`); `m1` is the first capture group
(`match[1]`), `none` when the regex has no first group or the group did not
participate in the match. -/
structure RMatch where
  m0 : String
  m1 : Option String
  deriving DecidableEq, Repr

/-- A compiled JavaScript regular expression, abstracted by its search
behaviour: `exec line` returns the first match on `line`, if any. -/
structure JSRegex where
  exec : String → Option RMatch

/-- JavaScript property write `obj[k] = v` on a string-keyed record: if `k`
is already a key its value is updated in place (original insertion position
kept), otherwise the pair is appended at the end.  (Array-index-like keys,
which JS enumerates separately, are outside this model.) -/
def upsert {α : Type} (k : String) (v : α) : List (String × α) → List (String × α)
  | [] => [(k, v)]
  | p :: ps => if p.1 = k then (k, v) :: ps else p :: upsert k v ps

/-- JavaScript property read `obj[k]`. -/
def lookupKey {α : Type} : List (String × α) → String → Option α
  | [], _ => none
  | p :: ps, k => if p.1 = k then some p.2 else lookupKey ps k

/-- A row of extracted data (one element of `ExtractedData`): an
insertion-ordered string-keyed record of string values. -/
abbrev Row := List (String × String)

/-- JavaScript `String.prototype.split` with a one-character separator, on
character lists: splits at every occurrence of `sep`, keeping empty pieces,
and always returns at least one piece. -/
def splitOnChar (sep : Char) : List Char → List (List Char)
  | [] => [[]]
  | c :: cs =>
    if c = sep then [] :: splitOnChar sep cs
    else
      match splitOnChar sep cs with
      | [] => [[c]]
      | t :: ts => (c :: t) :: ts

/-- JavaScript `s.split(sep)` for a one-character separator string. -/
def jsSplit (sep : Char) (s : String) : List String :=
  (splitOnChar sep s.data).map String.mk

/-- JavaScript `s.trim()`: strip leading and trailing whitespace. -/
def jsTrim (s : String) : String :=
  String.mk (((s.data.dropWhile Char.isWhitespace).reverse.dropWhile
    Char.isWhitespace).reverse)

/-- JavaScript string falsiness: a string is falsy exactly when empty. -/
def strEmpty (s : String) : Bool := s.data.isEmpty

/-- `text.split("\n").filter((line) => line.trim())`: the non-blank lines of
the input, in order. -/
def nonBlankLines (text : String) : List String :=
  (jsSplit '\n' text).filter (fun line => !strEmpty (jsTrim line))

/-- One line of the pattern specification, as parsed by
`const [fieldName, pattern] = line.split(":").map((s) => s.trim());`
followed by the `if (fieldName && pattern)` truthiness guard (an empty
string and a missing part are both falsy). -/
def parseLine (line : String) : Option (String × String) :=
  match (jsSplit ':' line).map jsTrim with
  | fieldName :: pat :: _ =>
    if !strEmpty fieldName && !strEmpty pat then some (fieldName, pat) else none
  | _ => none

/-- Loop body of the line loop of `parsePatterns`: for a non-blank line
that passes the guard, `compile` (abstracting `new RegExp(pattern, "i")`,
returning `none` when construction throws) is attempted and, on success,
the entry is written into the record; otherwise the record is unchanged. -/
def addPattern (compile : String → Option JSRegex)
    (pats : List (String × JSRegex)) (line : String) : List (String × JSRegex) :=
  match parseLine line with
  | some (fieldName, pat) =>
    match compile pat with
    | some r => upsert fieldName r pats
    | none => pats
  | none => pats

/-- The accumulation loop of `parsePatterns` over all non-blank lines. -/
def compiledEntries (compile : String → Option JSRegex) (patternString : String) :
    List (String × JSRegex) :=
  (nonBlankLines patternString).foldl (addPattern compile) []

/-- Characters that the JavaScript regex metacharacter `.` does not match. -/
def isLineTerm (c : Char) : Bool :=
  c = '\n' || c = '\r' || c = Char.ofNat 0x2028 || c = Char.ofNat 0x2029

/-- First maximal run of characters satisfying `p`: the semantics of a
JavaScript search for `/(x+)/` where `x` is a character class decided
by `p`. -/
def searchRun (p : Char → Bool) : List Char → Option (List Char)
  | [] => none
  | c :: cs => if p c then some (c :: cs.takeWhile p) else searchRun p cs

/-- The default pattern `/(.+)/` installed when no user pattern compiled:
it matches the first maximal run of non-line-terminator characters and
captures that same run as group 1. -/
def defaultTextRegex : JSRegex :=
  ⟨fun s => (searchRun (fun c => !isLineTerm c) s.data).map
    (fun r => ⟨String.mk r, some (String.mk r)⟩)⟩

/-- `parsePatterns`: builds the compiled record and, if it ended up empty,
seeds it with the single default entry `"text" ↦ /(.+)/`. -/
def parsePatterns (compile : String → Option JSRegex) (patternString : String) :
    List (String × JSRegex) :=
  let patterns := compiledEntries compile patternString
  if patterns.isEmpty then [("text", defaultTextRegex)] else patterns

/-- The field name a specification line contributes: `some fieldName` when
the line passes the guard and its regex compiles, `none` otherwise. -/
def compiledNameOf (compile : String → Option JSRegex) (line : String) : Option String :=
  match parseLine line with
  | some (fieldName, pat) =>
    match compile pat with
    | some _ => some fieldName
    | none => none
  | none => none

/-- Field names of the specification lines that pass the guard and whose
regex compiles, in line order (with multiplicity). -/
def compiledNames (compile : String → Option JSRegex) (patternString : String) :
    List String :=
  (nonBlankLines patternString).filterMap (compiledNameOf compile)

/-- The value recorded for a match: `match[1] || match[0]` (an undefined or
empty first group falls back to the whole matched substring). -/
def matchValue (m : RMatch) : String :=
  match m.m1 with
  | some g => if strEmpty g then m.m0 else g
  | none => m.m0

/-- Loop body of the per-pattern loop of `extractDataFromText`:
`const match = line.match(regex); if (match) { row[key] = match[1] || match[0]; foundData = true; }`. -/
def applyPattern (line : String) (acc : Row × Bool) (kr : String × JSRegex) :
    Row × Bool :=
  match kr.2.exec line with
  | some m => (upsert kr.1 (matchValue m) acc.1, true)
  | none => acc

/-- Per-line step of `extractDataFromText`: apply every compiled pattern in
record order, and if any matched, finalize the row with `line_number`
(1-based index as string) and `raw_text` (the original line). -/
def processLine (patternMap : List (String × JSRegex)) (index : Nat) (line : String) :
    Option Row :=
  let step := patternMap.foldl (applyPattern line) (([] : Row), false)
  if step.2 then
    some (upsert "raw_text" line (upsert "line_number" (toString (index + 1)) step.1))
  else none

/-- `lines.forEach((line, index) => ...)`: accumulate the rows of the lines
that matched at least one pattern, in line order. -/
def extractRows (patternMap : List (String × JSRegex)) : Nat → List String → List Row
  | _, [] => []
  | index, line :: rest =>
    match processLine patternMap index line with
    | some row => row :: extractRows patternMap (index + 1) rest
    | none => extractRows patternMap (index + 1) rest

/-- `extractDataFromText` after the file content has been read into `text`:
reject when no non-blank line remains, otherwise run every compiled pattern
over every non-blank line. -/
def extractDataFromText (compile : String → Option JSRegex)
    (text patternString : String) : Except String (List Row) :=
  let lines := nonBlankLines text
  if lines.isEmpty then Except.error "Empty file"
  else Except.ok (extractRows (parsePatterns compile patternString) 0 lines)

/-- One CSV cell: `.trim().replace(/"/g, "")` (trim, then drop every
double-quote character wherever it occurs). -/
def csvCell (s : String) : String :=
  String.mk ((jsTrim s).data.filter (fun c => c != '"'))

/-- The comma-split cells of one line:
`line.split(",").map((v) => v.trim().replace(/"/g, ""))`. -/
def csvCells (line : String) : List String :=
  (jsSplit ',' line).map csvCell

/-- `headers.forEach((header, index) => { row[header] = values[index] || ""; })`:
positional zip of a data line's cells against the header names, missing
trailing cells defaulting to the empty string. -/
def buildRow (values : List String) : List String → Nat → Row → Row
  | [], _, row => row
  | h :: hs, index, row =>
    buildRow values hs (index + 1) (upsert h (values.getD index "") row)

/-- `extractDataFromCsv` after the file content has been read into `text`:
reject when no non-blank line remains, otherwise use the first non-blank
line as header and build one row per following line. -/
def extractDataFromCsv (text : String) : Except String (List Row) :=
  match nonBlankLines text with
  | [] => Except.error "Empty CSV file"
  | headerLine :: rest =>
    let headers := csvCells headerLine
    Except.ok (rest.map (fun line => buildRow (csvCells line) headers 0 []))

/-- Case-insensitive literal match at the head of a character list,
returning the actual (case-preserved) matched characters. -/
def ciHere : List Char → List Char → Option (List Char)
  | [], _ => some []
  | _ :: _, [] => none
  | p :: ps, c :: cs =>
    if c.toLower = p.toLower then (ciHere ps cs).map (fun m => c :: m) else none

/-- First case-insensitive occurrence of a literal pattern in a character
list: the semantics of a JS search for a literal regex with flag `i`. -/
def ciSearch (pat : List Char) : List Char → Option (List Char)
  | [] => ciHere pat []
  | c :: cs =>
    match ciHere pat (c :: cs) with
    | some m => some m
    | none => ciSearch pat cs

/-- Model of the JS regex `/foo/i`: first case-insensitive occurrence of
the literal `foo`; no capture group. -/
def regexFoo : JSRegex :=
  ⟨fun s => (ciSearch "foo".data s.data).map (fun m => ⟨String.mk m, none⟩)⟩

/-- JavaScript `\w`: ASCII letters, digits and underscore. -/
def isWordChar (c : Char) : Bool := c.isAlphanum || c = '_'

/-- Model of the JS regex `/(\w+)/i`: first maximal word-character run,
captured as group 1. -/
def regexWordPlus : JSRegex :=
  ⟨fun s => (searchRun isWordChar s.data).map
    (fun r => ⟨String.mk r, some (String.mk r)⟩)⟩

/-- Model of the JS regex `/(\d+)/i`: first maximal digit run, captured as
group 1. -/
def regexDigitPlus : JSRegex :=
  ⟨fun s => (searchRun Char.isDigit s.data).map
    (fun r => ⟨String.mk r, some (String.mk r)⟩)⟩

/-- Search function of the JS regex `/a(b*)/i`: first `a` (either case),
followed by a greedy and possibly empty run of `b`s captured as group 1. -/
def execABstar : List Char → Option RMatch
  | [] => none
  | c :: cs =>
    if c.toLower = 'a' then
      some ⟨String.mk (c :: cs.takeWhile (fun d => d.toLower == 'b')),
            some (String.mk (cs.takeWhile (fun d => d.toLower == 'b')))⟩
    else execABstar cs

/-- Model of the JS regex `/a(b*)/i`. -/
def regexABstar : JSRegex := ⟨fun s => execABstar s.data⟩

/-- A concrete regex engine covering the pattern sources used in the
concrete runs of this development: it models `p => new RegExp(p, "i")` for
these four sources, and a throwing construction for every other source. -/
def demoCompile (p : String) : Option JSRegex :=
  if p = "(\\w+)" then some regexWordPlus
  else if p = "(\\d+)" then some regexDigitPlus
  else if p = "a(b*)" then some regexABstar
  else if p = "foo" then some regexFoo
  else none

/-- Split a character list into the part before and the part after the
first occurrence of `sep`; `none` when `sep` does not occur. -/
def splitFirst (sep : Char) : List Char → Option (List Char × List Char)
  | [] => none
  | c :: cs =>
    if c = sep then some ([], cs)
    else (splitFirst sep cs).map (fun p => (c :: p.1, p.2))

/-- Modelled from the spec (§4.1), as the reference point of the claim that
the parser splits on the FIRST colon: "Each remaining line is split into
exactly two parts on the first colon; both parts trimmed.  If either part
is empty after trimming, the line is discarded."  Here the regex source is
the entire remainder of the line after the first colon. -/
def parseLineSpecFirstColon (line : String) : Option (String × String) :=
  match splitFirst ':' line.data with
  | none => none
  | some (f, r) =>
    let fieldName := jsTrim (String.mk f)
    let pat := jsTrim (String.mk r)
    if !strEmpty fieldName && !strEmpty pat then some (fieldName, pat) else none

/-- The (fieldName, value) pairs that the per-line loop of
`extractDataFromText` records on `line`, in record order. -/
def matchedPairs (patternMap : List (String × JSRegex)) (line : String) : Row :=
  patternMap.filterMap
    (fun kr => (kr.2.exec line).map (fun m => (kr.1, matchValue m)))

/-- Index, counted from `i`, of the last occurrence of `n` in `hs`. -/
def lastIdxFrom (n : String) : Nat → List String → Option Nat
  | _, [] => none
  | i, h :: hs =>
    match lastIdxFrom n (i + 1) hs with
    | some j => some j
    | none => if h = n then some i else none

/-! ### Record (JS object) lemmas -/

theorem lookupKey_upsert {α : Type} (k : String) (v : α) (r : List (String × α))
    (n : String) :
    lookupKey (upsert k v r) n = if k = n then some v else lookupKey r n := by
  induction r with
  | nil => simp [upsert, lookupKey]
  | cons p ps ih =>
    by_cases h : p.1 = k
    · by_cases h' : k = n <;> simp [upsert, lookupKey, h, h']
    · simp only [upsert, h, if_false, lookupKey]
      rw [ih]
      by_cases h' : p.1 = n
      · have : ¬ k = n := fun he => h (h' ▸ he ▸ rfl)
        simp [h', this]
      · simp [h']

theorem keys_upsert {α : Type} (k : String) (v : α) (r : List (String × α)) :
    (upsert k v r).map Prod.fst =
      if k ∈ r.map Prod.fst then r.map Prod.fst else r.map Prod.fst ++ [k] := by
  induction r with
  | nil => simp [upsert]
  | cons p ps ih =>
    by_cases h : p.1 = k
    · simp [upsert, h]
    · have hne : ¬ k = p.1 := fun he => h he.symm
      simp only [upsert, h, if_false, List.map_cons, ih, List.mem_cons, hne,
        false_or]
      by_cases h' : k ∈ ps.map Prod.fst <;> simp [h']

theorem mem_keys_upsert {α : Type} (k : String) (v : α) (r : List (String × α))
    (n : String) :
    n ∈ (upsert k v r).map Prod.fst ↔ n = k ∨ n ∈ r.map Prod.fst := by
  rw [keys_upsert]
  by_cases h : k ∈ r.map Prod.fst
  · simp only [h, if_true]
    constructor
    · exact fun hn => Or.inr hn
    · rintro (rfl | hn)
      · exact h
      · exact hn
  · simp [h, List.mem_append, or_comm]

theorem upsert_of_not_mem {α : Type} (k : String) (v : α) (r : List (String × α))
    (h : k ∉ r.map Prod.fst) : upsert k v r = r ++ [(k, v)] := by
  induction r with
  | nil => simp [upsert]
  | cons p ps ih =>
    simp only [List.map_cons, List.mem_cons] at h
    push_neg at h
    have : ¬ p.1 = k := fun he => h.1 he.symm
    simp [upsert, this, ih h.2]

theorem keys_upsert_nodup {α : Type} (k : String) (v : α) (r : List (String × α))
    (h : (r.map Prod.fst).Nodup) : ((upsert k v r).map Prod.fst).Nodup := by
  rw [keys_upsert]
  by_cases hk : k ∈ r.map Prod.fst
  · simpa [hk] using h
  · simp [hk, List.nodup_append, h]

theorem lookupKey_of_mem {α : Type} (r : List (String × α)) (k : String) (v : α)
    (hnd : (r.map Prod.fst).Nodup) (hm : (k, v) ∈ r) : lookupKey r k = some v := by
  induction r with
  | nil => simp at hm
  | cons p ps ih =>
    rcases List.mem_cons.mp hm with rfl | hm'
    · simp [lookupKey]
    · have hk : k ∈ ps.map Prod.fst := List.mem_map_of_mem Prod.fst hm'
      have hne : ¬ p.1 = k := by
        intro he
        exact (List.nodup_cons.mp (by simpa using hnd)).1 (he ▸ hk)
      simp only [lookupKey, hne, if_false]
      exact ih (List.nodup_cons.mp (by simpa using hnd)).2 hm'

theorem lookupKey_eq_none_of_not_mem {α : Type} (r : List (String × α)) (n : String)
    (h : n ∉ r.map Prod.fst) : lookupKey r n = none := by
  induction r with
  | nil => rfl
  | cons p ps ih =>
    simp only [List.map_cons, List.mem_cons] at h
    push_neg at h
    have : ¬ p.1 = n := fun he => h.1 he.symm
    simp [lookupKey, this, ih h.2]

/-! ### Splitting lemmas -/

theorem splitOnChar_ne_nil (sep : Char) (l : List Char) : splitOnChar sep l ≠ [] := by
  cases l with
  | nil => simp [splitOnChar]
  | cons c cs =>
    by_cases h : c = sep
    · simp [splitOnChar, h]
    · simp only [splitOnChar, h, if_false]
      cases hs : splitOnChar sep cs <;> simp

theorem splitOnChar_of_not_mem (sep : Char) (l : List Char) (h : sep ∉ l) :
    splitOnChar sep l = [l] := by
  induction l with
  | nil => rfl
  | cons c cs ih =>
    simp only [List.mem_cons] at h
    push_neg at h
    have : ¬ c = sep := fun he => h.1 he.symm
    simp [splitOnChar, this, ih h.2]

theorem splitOnChar_append (sep : Char) (a b : List Char) (h : sep ∉ a) :
    splitOnChar sep (a ++ sep :: b) = a :: splitOnChar sep b := by
  induction a with
  | nil => simp [splitOnChar]
  | cons c cs ih =>
    simp only [List.mem_cons] at h
    push_neg at h
    have : ¬ c = sep := fun he => h.1 he.symm
    simp [splitOnChar, this, ih h.2]

theorem splitFirst_append (sep : Char) (a b : List Char) (h : sep ∉ a) :
    splitFirst sep (a ++ sep :: b) = some (a, b) := by
  induction a with
  | nil => simp [splitFirst]
  | cons c cs ih =>
    simp only [List.mem_cons] at h
    push_neg at h
    have : ¬ c = sep := fun he => h.1 he.symm
    simp [splitFirst, this, ih h.2]

theorem takeWhile_all {α : Type} (p : α → Bool) :
    ∀ (l : List α), (∀ c ∈ l, p c) → l.takeWhile p = l := by
  intro l h
  induction l with
  | nil => rfl
  | cons c cs ih =>
    simp [List.takeWhile_cons, h c (by simp),
      ih (fun d hd => h d (List.mem_cons_of_mem _ hd))]

/-! ### Pattern-extractor lemmas -/

theorem matchedPairs_keys_sublist (pm : List (String × JSRegex)) (line : String) :
    ((matchedPairs pm line).map Prod.fst).Sublist (pm.map Prod.fst) := by
  induction pm with
  | nil => simp [matchedPairs]
  | cons kr pm ih =>
    simp only [matchedPairs, List.filterMap_cons] at *
    cases h : kr.2.exec line with
    | none => simpa [h] using ih.cons kr.1
    | some m => simpa [h] using ih.cons₂ kr.1

theorem foldl_applyPattern (line : String) :
    ∀ (pm : List (String × JSRegex)) (r : Row) (b : Bool),
      (pm.map Prod.fst).Nodup →
      (∀ n ∈ pm.map Prod.fst, n ∉ r.map Prod.fst) →
      pm.foldl (applyPattern line) (r, b) =
        (r ++ matchedPairs pm line, b || !(matchedPairs pm line).isEmpty) := by
  intro pm
  induction pm with
  | nil => intro r b _ _; simp [matchedPairs]
  | cons kr pm ih =>
    intro r b hnd hdisj
    rw [List.map_cons] at hnd
    have hhd := (List.nodup_cons.mp hnd).1
    have hnd' := (List.nodup_cons.mp hnd).2
    simp only [List.foldl_cons, matchedPairs, List.filterMap_cons]
    cases hm : kr.2.exec line with
    | none =>
      have h1 : applyPattern line (r, b) kr = (r, b) := by simp [applyPattern, hm]
      rw [h1]
      simpa [hm, matchedPairs] using
        ih r b hnd' (fun n hn => hdisj n (by simp [hn]))
    | some m =>
      have h1 : applyPattern line (r, b) kr =
          (r ++ [(kr.1, matchValue m)], true) := by
        simp [applyPattern, hm,
          upsert_of_not_mem kr.1 (matchValue m) r (hdisj kr.1 (by simp))]
      rw [h1]
      have hdisj' : ∀ n ∈ pm.map Prod.fst,
          n ∉ (r ++ [(kr.1, matchValue m)]).map Prod.fst := by
        intro n hn
        rw [List.map_append]
        simp only [List.mem_append, List.map_cons, List.map_nil,
          List.mem_singleton]
        push_neg
        refine ⟨hdisj n (by simp [hn]), ?_⟩
        intro he
        exact hhd (he ▸ hn)
      rw [ih (r ++ [(kr.1, matchValue m)]) true hnd' hdisj']
      simp [hm, matchedPairs, List.append_assoc]

theorem processLine_eq (pm : List (String × JSRegex)) (index : Nat) (line : String)
    (hnd : (pm.map Prod.fst).Nodup) :
    processLine pm index line =
      if (matchedPairs pm line).isEmpty then none
      else some (upsert "raw_text" line
        (upsert "line_number" (toString (index + 1)) (matchedPairs pm line))) := by
  unfold processLine
  rw [foldl_applyPattern line pm [] false hnd (by simp)]
  cases h : (matchedPairs pm line).isEmpty <;> simp [h]

theorem foldl_applyPattern_none (line : String) :
    ∀ (pm : List (String × JSRegex)) (acc : Row × Bool),
      (∀ kr ∈ pm, kr.2.exec line = none) →
      pm.foldl (applyPattern line) acc = acc := by
  intro pm
  induction pm with
  | nil => intro acc _; rfl
  | cons kr pm ih =>
    intro acc hall
    simp only [List.foldl_cons]
    have h1 : applyPattern line acc kr = acc := by
      simp [applyPattern, hall kr (by simp)]
    rw [h1]
    exact ih acc (fun kr' h => hall kr' (List.mem_cons_of_mem _ h))

theorem processLine_none (pm : List (String × JSRegex)) (index : Nat) (line : String)
    (h : ∀ kr ∈ pm, kr.2.exec line = none) : processLine pm index line = none := by
  unfold processLine
  rw [foldl_applyPattern_none line pm _ h]
  simp

theorem extractRows_length (pm : List (String × JSRegex)) :
    ∀ (lines : List String) (i : Nat),
      (extractRows pm i lines).length ≤ lines.length := by
  intro lines
  induction lines with
  | nil => intro i; simp [extractRows]
  | cons line rest ih =>
    intro i
    simp only [extractRows]
    cases h : processLine pm i line with
    | some row => simpa using Nat.succ_le_succ (ih (i + 1))
    | none =>
      simp only [List.length_cons]
      exact le_trans (ih (i + 1)) (Nat.le_succ _)

theorem mem_extractRows (pm : List (String × JSRegex)) :
    ∀ (lines : List String) (i : Nat) (row : Row), row ∈ extractRows pm i lines →
      ∃ j line, lines.get? j = some line ∧ processLine pm (i + j) line = some row := by
  intro lines
  induction lines with
  | nil => intro i row h; simp [extractRows] at h
  | cons line rest ih =>
    intro i row h
    simp only [extractRows] at h
    cases hp : processLine pm i line with
    | some row0 =>
      rw [hp] at h
      rcases List.mem_cons.mp h with rfl | h'
      · exact ⟨0, line, by simp, by simpa using hp⟩
      · obtain ⟨j, l, hg, hpl⟩ := ih (i + 1) row h'
        exact ⟨j + 1, l, by simpa using hg,
          by rw [show i + (j + 1) = i + 1 + j from by omega]; exact hpl⟩
    | none =>
      rw [hp] at h
      obtain ⟨j, l, hg, hpl⟩ := ih (i + 1) row h
      exact ⟨j + 1, l, by simpa using hg,
        by rw [show i + (j + 1) = i + 1 + j from by omega]; exact hpl⟩

theorem extractDataFromText_ok (compile : String → Option JSRegex)
    (text patternString : String) (rows : List Row)
    (h : extractDataFromText compile text patternString = Except.ok rows) :
    rows = extractRows (parsePatterns compile patternString) 0 (nonBlankLines text) := by
  unfold extractDataFromText at h
  by_cases he : (nonBlankLines text).isEmpty
  · simp [he] at h
  · simp only [Bool.not_eq_true] at he
    simp only [he, Bool.false_eq_true, if_false, Except.ok.injEq] at h
    exact h.symm

/-! ### Parser key-set lemmas -/

theorem keys_foldl_addPattern_nodup (compile : String → Option JSRegex) :
    ∀ (lines : List String) (acc : List (String × JSRegex)),
      (acc.map Prod.fst).Nodup →
      ((lines.foldl (addPattern compile) acc).map Prod.fst).Nodup := by
  intro lines
  induction lines with
  | nil => intro acc h; simpa using h
  | cons line lines ih =>
    intro acc h
    simp only [List.foldl_cons]
    apply ih
    cases hp : parseLine line with
    | none => simpa [addPattern, hp] using h
    | some fp =>
      obtain ⟨f, p⟩ := fp
      cases hc : compile p with
      | none => simpa [addPattern, hp, hc] using h
      | some r => simpa [addPattern, hp, hc] using keys_upsert_nodup f r acc h

theorem parsePatterns_keys_nodup (compile : String → Option JSRegex)
    (patternString : String) :
    ((parsePatterns compile patternString).map Prod.fst).Nodup := by
  unfold parsePatterns
  by_cases h : (compiledEntries compile patternString).isEmpty
  · simp [h]
  · simp only [h, if_false]
    exact keys_foldl_addPattern_nodup compile _ [] (by simp)

theorem mem_keys_foldl_addPattern (compile : String → Option JSRegex) :
    ∀ (lines : List String) (acc : List (String × JSRegex)) (n : String),
      n ∈ (lines.foldl (addPattern compile) acc).map Prod.fst ↔
        n ∈ lines.filterMap (compiledNameOf compile) ∨ n ∈ acc.map Prod.fst := by
  intro lines
  induction lines with
  | nil => intro acc n; simp
  | cons line lines ih =>
    intro acc n
    simp only [List.foldl_cons, List.filterMap_cons]
    cases hp : parseLine line with
    | none => simp [addPattern, compiledNameOf, hp, ih]
    | some fp =>
      obtain ⟨f, p⟩ := fp
      cases hc : compile p with
      | none => simp [addPattern, compiledNameOf, hp, hc, ih]
      | some r =>
        simp only [addPattern, compiledNameOf, hp, hc]
        rw [ih]
        simp only [mem_keys_upsert, List.mem_cons]
        tauto

theorem mem_keys_compiledEntries (compile : String → Option JSRegex)
    (patternString : String) (n : String) :
    n ∈ (compiledEntries compile patternString).map Prod.fst ↔
      n ∈ compiledNames compile patternString := by
  unfold compiledEntries compiledNames
  rw [mem_keys_foldl_addPattern]
  simp

/-! ### Delimited-text extractor lemmas -/

theorem lookupKey_buildRow (values : List String) :
    ∀ (hs : List String) (i : Nat) (r : Row) (n : String),
      lookupKey (buildRow values hs i r) n =
        match lastIdxFrom n i hs with
        | some j => some (values.getD j "")
        | none => lookupKey r n := by
  intro hs
  induction hs with
  | nil => intro i r n; simp [buildRow, lastIdxFrom]
  | cons h hs ih =>
    intro i r n
    simp only [buildRow, lastIdxFrom]
    rw [ih]
    cases hl : lastIdxFrom n (i + 1) hs with
    | some j => simp
    | none =>
      simp only [lookupKey_upsert]
      by_cases he : h = n <;> simp [he]

theorem mem_keys_buildRow (values : List String) :
    ∀ (hs : List String) (i : Nat) (r : Row) (n : String),
      n ∈ (buildRow values hs i r).map Prod.fst ↔ n ∈ hs ∨ n ∈ r.map Prod.fst := by
  intro hs
  induction hs with
  | nil => intro i r n; simp [buildRow]
  | cons h hs ih =>
    intro i r n
    simp only [buildRow]
    rw [ih]
    simp only [mem_keys_upsert, List.mem_cons]
    tauto

theorem lastIdxFrom_of_not_mem (n : String) :
    ∀ (hs : List String) (i : Nat), n ∉ hs → lastIdxFrom n i hs = none := by
  intro hs
  induction hs with
  | nil => intro i _; rfl
  | cons h hs ih =>
    intro i hmem
    simp only [List.mem_cons] at hmem
    push_neg at hmem
    have : ¬ h = n := fun he => hmem.1 he.symm
    simp [lastIdxFrom, ih (i + 1) hmem.2, this]

theorem lastIdxFrom_of_unique (n : String) :
    ∀ (hs : List String) (j i : Nat), hs.get? j = some n → n ∉ hs.drop (j + 1) →
      lastIdxFrom n i hs = some (i + j) := by
  intro hs
  induction hs with
  | nil => intro j i h _; simp at h
  | cons h hs ih =>
    intro j i hget hdrop
    cases j with
    | zero =>
      simp only [List.get?_cons_zero, Option.some.injEq] at hget
      simp only [List.drop_succ_cons, List.drop_zero] at hdrop
      simp [lastIdxFrom, lastIdxFrom_of_not_mem n hs (i + 1) hdrop, hget]
    | succ j' =>
      have hrec := ih j' (i + 1) (by simpa using hget) (by simpa using hdrop)
      simp only [lastIdxFrom, hrec]
      congr 1
      omega

theorem extractDataFromCsv_ok (text : String) (rows : List Row)
    (h : extractDataFromCsv text = Except.ok rows) :
    ∃ headerLine rest, nonBlankLines text = headerLine :: rest ∧
      rows = rest.map
        (fun line => buildRow (csvCells line) (csvCells headerLine) 0 []) := by
  unfold extractDataFromCsv at h
  cases hn : nonBlankLines text with
  | nil => rw [hn] at h; simp at h
  | cons hl rest =>
    rw [hn] at h
    simp only [Except.ok.injEq] at h
    exact ⟨hl, rest, rfl, h.symm⟩

/-! ### Auxiliary facts -/

theorem strData_ne_nil (s : String) (h : s ≠ "") : s.data ≠ [] := by
  intro hd
  apply h
  cases s
  exact congrArg String.mk hd

/-! ### Claims -/

/-- **C1** (corrected).  The parser does NOT split a specification line into
two parts on the first colon only: `line.split(":")` splits on every colon
and the destructuring keeps only the first two pieces.  For a line
`name:pat` with at most one colon the behaviour agrees with the spec's
first-colon description, but any text after a second colon is silently
discarded, so the regex source is the trimmed text strictly between the
first and the second colon, not the entire remainder of the line. -/
theorem C1_pattern_line_split (name pat rest : String)
    (hn : ':' ∉ name.data) (hp : ':' ∉ pat.data) :
    parseLine (name ++ ":" ++ pat) =
      (if !strEmpty (jsTrim name) && !strEmpty (jsTrim pat)
        then some (jsTrim name, jsTrim pat) else none) ∧
    parseLine (name ++ ":" ++ pat ++ ":" ++ rest) = parseLine (name ++ ":" ++ pat) ∧
    parseLine (name ++ ":" ++ pat) = parseLineSpecFirstColon (name ++ ":" ++ pat) := by
  have hdata : (name ++ ":" ++ pat).data = name.data ++ ':' :: pat.data := by
    simp [String.data_append]
  have hdata2 : (name ++ ":" ++ pat ++ ":" ++ rest).data
      = name.data ++ ':' :: (pat.data ++ ':' :: rest.data) := by
    simp [String.data_append]
  have h1 : jsSplit ':' (name ++ ":" ++ pat) = [name, pat] := by
    unfold jsSplit
    rw [hdata, splitOnChar_append ':' name.data pat.data hn,
      splitOnChar_of_not_mem ':' pat.data hp]
    rfl
  have h2 : jsSplit ':' (name ++ ":" ++ pat ++ ":" ++ rest)
      = name :: pat :: jsSplit ':' rest := by
    unfold jsSplit
    rw [hdata2, splitOnChar_append ':' name.data _ hn,
      splitOnChar_append ':' pat.data rest.data hp]
    rfl
  refine ⟨?_, ?_, ?_⟩
  · unfold parseLine
    rw [h1]
    rfl
  · unfold parseLine
    rw [h1, h2]
    rfl
  · unfold parseLine parseLineSpecFirstColon
    rw [h1, hdata, splitFirst_append ':' name.data pat.data hn]
    rfl

/-- **C1** counterexample: on the line `time: \d+:\d+` the code compiles the
source `\d+` (the piece between the two colons), while the claim requires
the entire remainder `\d+:\d+` after the first colon. -/
theorem C1_counterexample :
    parseLine "time: \\d+:\\d+" = some ("time", "\\d+") ∧
    parseLineSpecFirstColon "time: \\d+:\\d+" = some ("time", "\\d+:\\d+") ∧
    ("\\d+" : String) ≠ "\\d+:\\d+" :=
  ⟨rfl, rfl, by decide⟩

/-- Witness for `C1_pattern_line_split` at `name = "num"`,
`pat = " (\d+) "`, `rest = "x"`. -/
theorem C1_witness :
    parseLine ("num" ++ ":" ++ " (\\d+) ") =
      (if !strEmpty (jsTrim "num") && !strEmpty (jsTrim " (\\d+) ")
        then some (jsTrim "num", jsTrim " (\\d+) ") else none) ∧
    parseLine ("num" ++ ":" ++ " (\\d+) " ++ ":" ++ "x") =
      parseLine ("num" ++ ":" ++ " (\\d+) ") ∧
    parseLine ("num" ++ ":" ++ " (\\d+) ") =
      parseLineSpecFirstColon ("num" ++ ":" ++ " (\\d+) ") :=
  C1_pattern_line_split "num" " (\\d+) " "x" (by decide) (by decide)

/-- **C2** (corrected).  For a pattern entry that matches a line, the value
recorded under its field name is `match[1] || match[0]`: the first capture
group is used only when it captured a NON-empty substring; when the group
captured the empty string (or is absent) the entire matched substring is
used instead.  The recorded value is observable in the finished row for
field names other than the reserved `line_number` / `raw_text`. -/
theorem C2_match_value (compile : String → Option JSRegex)
    (patternString : String) (index : Nat) (line : String) (row : Row)
    (k : String) (r : JSRegex) (m : RMatch)
    (hrow : processLine (parsePatterns compile patternString) index line = some row)
    (hmem : (k, r) ∈ parsePatterns compile patternString)
    (hm : r.exec line = some m)
    (hk1 : k ≠ "line_number") (hk2 : k ≠ "raw_text") :
    lookupKey row k = some (matchValue m) ∧
    (∀ g, m.m1 = some g → ¬ strEmpty g = true → matchValue m = g) ∧
    (m.m1 = none → matchValue m = m.m0) ∧
    (m.m1 = some "" → matchValue m = m.m0) := by
  have hnd := parsePatterns_keys_nodup compile patternString
  rw [processLine_eq _ _ _ hnd] at hrow
  by_cases hie : (matchedPairs (parsePatterns compile patternString) line).isEmpty
  · rw [if_pos hie] at hrow
    exact absurd hrow (by simp)
  · rw [if_neg hie] at hrow
    have hroweq : row = upsert "raw_text" line
        (upsert "line_number" (toString (index + 1))
          (matchedPairs (parsePatterns compile patternString) line)) :=
      (Option.some.inj hrow).symm
    subst hroweq
    refine ⟨?_, ?_, ?_, ?_⟩
    · rw [lookupKey_upsert, if_neg (fun he => hk2 he.symm),
        lookupKey_upsert, if_neg (fun he => hk1 he.symm)]
      apply lookupKey_of_mem
      · exact List.Nodup.sublist (matchedPairs_keys_sublist _ _) hnd
      · unfold matchedPairs
        exact List.mem_filterMap.mpr ⟨(k, r), hmem, by simp [hm]⟩
    · intro g hg hge
      simp [matchValue, hg, hge]
    · intro hg
      simp [matchValue, hg]
    · intro hg
      rw [show matchValue m = if strEmpty "" then m.m0 else "" from by
        simp [matchValue, hg]]
      rw [show strEmpty "" = true from rfl]
      simp

/-- **C2** counterexample: with the pattern `g: a(b*)` on the line `ac`,
the regex matches with first group captured as the EMPTY string, yet the
recorded value is the whole matched substring `a`, not the captured empty
string the claim requires. -/
theorem C2_counterexample :
    extractDataFromText demoCompile "ac" "g: a(b*)" =
      Except.ok [[("g", "a"), ("line_number", "1"), ("raw_text", "ac")]] ∧
    regexABstar.exec "ac" = some ⟨"a", some ""⟩ ∧
    ("a" : String) ≠ "" :=
  ⟨rfl, rfl, by decide⟩

/-- Witness for `C2_match_value` on pattern `g: a(b*)` and line `ac`. -/
theorem C2_witness :
    lookupKey [(("g" : String), ("a" : String)),
      ("line_number", "1"), ("raw_text", "ac")] "g" =
      some (matchValue ⟨"a", some ""⟩) :=
  (C2_match_value demoCompile "g: a(b*)" 0 "ac"
    [("g", "a"), ("line_number", "1"), ("raw_text", "ac")] "g" regexABstar
    ⟨"a", some ""⟩ (by rfl)
    (by rw [show parsePatterns demoCompile "g: a(b*)" = [("g", regexABstar)] from rfl]
        simp)
    (by rfl) (by decide) (by decide)).1

/-- **C3** (confirmed).  When no non-blank line remains after filtering,
both extractors fail with their Empty-Input error and produce no (partial
or empty) successful result. -/
theorem C3_empty_input (compile : String → Option JSRegex)
    (text patternString : String) (h : nonBlankLines text = []) :
    extractDataFromText compile text patternString = Except.error "Empty file" ∧
    extractDataFromCsv text = Except.error "Empty CSV file" := by
  constructor
  · unfold extractDataFromText
    simp [h]
  · unfold extractDataFromCsv
    rw [h]

/-- Witness for `C3_empty_input` on a whitespace-only input. -/
theorem C3_witness :
    extractDataFromText demoCompile "\n  \n" "x" = Except.error "Empty file" ∧
    extractDataFromCsv "\n  \n" = Except.error "Empty CSV file" :=
  C3_empty_input demoCompile "\n  \n" "x" (by decide)

/-- **C4** (corrected).  When zero entries compile, the parser's record is
exactly the single default entry `"text" ↦ /(.+)/`.  That pattern matches
and captures the full content of a non-empty line only when the line
contains no line-terminator character (JS `.` excludes CR, LF, U+2028,
U+2029); on a line containing e.g. a carriage return it matches only the
first maximal terminator-free run, not the full line content. -/
theorem C4_default_fallback (compile : String → Option JSRegex)
    (patternString : String)
    (h : compiledNames compile patternString = []) :
    parsePatterns compile patternString = [("text", defaultTextRegex)] ∧
    ∀ line : String, line ≠ "" → (∀ c ∈ line.data, isLineTerm c = false) →
      defaultTextRegex.exec line = some ⟨line, some line⟩ := by
  constructor
  · have hkeys : (compiledEntries compile patternString).map Prod.fst = [] := by
      rw [List.eq_nil_iff_forall_not_mem]
      intro n hn
      rw [mem_keys_compiledEntries] at hn
      simp [h] at hn
    have hempty : compiledEntries compile patternString = [] := by
      cases he : compiledEntries compile patternString with
      | nil => rfl
      | cons q qs => rw [he] at hkeys; simp at hkeys
    unfold parsePatterns
    simp [hempty]
  · intro line hne hterm
    cases hl : line.data with
    | nil => exact absurd hl (strData_ne_nil line hne)
    | cons c cs =>
      have hpc : (!isLineTerm c) = true := by
        rw [hterm c (by rw [hl]; simp)]
        rfl
      have hall : cs.takeWhile (fun ch => !isLineTerm ch) = cs := by
        apply takeWhile_all
        intro d hdm
        rw [hterm d (by rw [hl]; exact List.mem_cons_of_mem _ hdm)]
        rfl
      have hmk : String.mk (c :: cs) = line := by rw [← hl]
      show (searchRun (fun ch => !isLineTerm ch) line.data).map
          (fun r => (⟨String.mk r, some (String.mk r)⟩ : RMatch)) =
        some ⟨line, some line⟩
      rw [hl]
      simp [searchRun, hpc, hall, hmk]

/-- **C4** counterexample: for an all-malformed specification the fallback
is installed, but on the non-empty line `a\rb` (as arises from CRLF input)
the default pattern captures only `a`, not the full line content. -/
theorem C4_counterexample :
    parsePatterns demoCompile "" = [("text", defaultTextRegex)] ∧
    defaultTextRegex.exec "a\rb" = some ⟨"a", some "a"⟩ ∧
    ("a" : String) ≠ "a\rb" :=
  ⟨rfl, rfl, by decide⟩

/-- Witness for `C4_default_fallback` on the colon-free specification
`nocolonline` and the terminator-free line `abc`. -/
theorem C4_witness :
    parsePatterns demoCompile "nocolonline" = [("text", defaultTextRegex)] ∧
    defaultTextRegex.exec "abc" = some ⟨"abc", some "abc"⟩ := by
  have h := C4_default_fallback demoCompile "nocolonline" (by rfl)
  exact ⟨h.1, h.2 "abc" (by decide) (by decide)⟩

/-- **C5** (confirmed).  When at least one specification line parses and
compiles, the parser returns exactly the accumulated record (the default
`"text"` fallback entry is never installed), and its key set is exactly the
set of field names of the lines whose regex compiled. -/
theorem C5_compiled_key_set (compile : String → Option JSRegex)
    (patternString : String)
    (h : compiledNames compile patternString ≠ []) :
    parsePatterns compile patternString = compiledEntries compile patternString ∧
    ∀ n : String, n ∈ (parsePatterns compile patternString).map Prod.fst ↔
      n ∈ compiledNames compile patternString := by
  have hne : ¬ (compiledEntries compile patternString).isEmpty = true := by
    intro hie
    obtain ⟨n0, hn0⟩ := List.exists_mem_of_ne_nil _ h
    have hmem := (mem_keys_compiledEntries compile patternString n0).mpr hn0
    cases hce : compiledEntries compile patternString with
    | nil => rw [hce] at hmem; simp at hmem
    | cons q qs => rw [hce] at hie; simp at hie
  have heq : parsePatterns compile patternString =
      compiledEntries compile patternString := by
    unfold parsePatterns
    simp [hne]
  refine ⟨heq, fun n => ?_⟩
  rw [heq, mem_keys_compiledEntries]

/-- Witness for `C5_compiled_key_set` on a specification with one good line
and one malformed line. -/
theorem C5_witness :
    (parsePatterns demoCompile "name: (\\w+)\nbad line" =
      compiledEntries demoCompile "name: (\\w+)\nbad line") ∧
    ("name" ∈ (parsePatterns demoCompile "name: (\\w+)\nbad line").map Prod.fst ↔
      "name" ∈ compiledNames demoCompile "name: (\\w+)\nbad line") ∧
    ("text" ∈ (parsePatterns demoCompile "name: (\\w+)\nbad line").map Prod.fst ↔
      "text" ∈ compiledNames demoCompile "name: (\\w+)\nbad line") := by
  have h := C5_compiled_key_set demoCompile "name: (\\w+)\nbad line" (by decide)
  exact ⟨h.1, h.2 "name", h.2 "text"⟩

/-- **C6** (confirmed).  A successful pattern extraction returns at most one
row per non-blank line, and a line on which no compiled pattern matches
contributes no row at all. -/
theorem C6_row_count_bound (compile : String → Option JSRegex)
    (text patternString : String) (rows : List Row)
    (h : extractDataFromText compile text patternString = Except.ok rows) :
    rows.length ≤ (nonBlankLines text).length ∧
    ∀ (index : Nat) (line : String),
      (∀ kr ∈ parsePatterns compile patternString, kr.2.exec line = none) →
      processLine (parsePatterns compile patternString) index line = none := by
  refine ⟨?_, fun index line hall => processLine_none _ index line hall⟩
  rw [extractDataFromText_ok compile text patternString rows h]
  exact extractRows_length _ _ _

/-- Witness for `C6_row_count_bound`: two non-blank lines, one matching
row; the non-matching line `zz` yields no row. -/
theorem C6_witness :
    ([[("num", "1"), ("line_number", "1"), ("raw_text", "x1")]] : List Row).length ≤
      (nonBlankLines "x1\nzz").length ∧
    processLine (parsePatterns demoCompile "num: (\\d+)") 1 "zz" = none := by
  have h := C6_row_count_bound demoCompile "x1\nzz" "num: (\\d+)"
    [[("num", "1"), ("line_number", "1"), ("raw_text", "x1")]] (by rfl)
  refine ⟨h.1, h.2 1 "zz" ?_⟩
  intro kr hkr
  rw [show parsePatterns demoCompile "num: (\\d+)" = [("num", regexDigitPlus)]
    from rfl] at hkr
  rw [List.mem_singleton] at hkr
  subst hkr
  rfl

/-- **C7** (corrected).  Every non-header line of a delimited input yields
exactly one row (row count = non-blank line count − 1), and a row maps a
header name to the positionally matching trimmed, quote-stripped cell
(missing trailing cells defaulting to the empty string) PROVIDED that
header name does not occur again in a later column; a later duplicate
header cell overwrites the earlier column's value under that shared key. -/
theorem C7_csv_rows (text : String) (rows : List Row)
    (h : extractDataFromCsv text = Except.ok rows) :
    rows.length = (nonBlankLines text).length - 1 ∧
    ∀ row ∈ rows, ∃ headerLine rest line,
      nonBlankLines text = headerLine :: rest ∧ line ∈ rest ∧
      ∀ (i : Nat) (n : String), (csvCells headerLine).get? i = some n →
        n ∉ (csvCells headerLine).drop (i + 1) →
        lookupKey row n = some ((csvCells line).getD i "") := by
  obtain ⟨hl, rest, hsplit, hrows⟩ := extractDataFromCsv_ok text rows h
  constructor
  · rw [hrows, hsplit]
    simp
  · intro row hrow
    rw [hrows] at hrow
    obtain ⟨line, hline, hbuild⟩ := List.mem_map.mp hrow
    refine ⟨hl, rest, line, hsplit, hline, ?_⟩
    intro i n hget hdrop
    rw [← hbuild, lookupKey_buildRow,
      lastIdxFrom_of_unique n (csvCells hl) i 0 hget hdrop]
    simp

/-- **C7** counterexample: with the duplicated header `a,a` and data line
`1,2`, the single produced row maps `a` to `2`, not to the 0th cell `1`
that the claim's `header[i] → value[i]` reading requires. -/
theorem C7_counterexample :
    extractDataFromCsv "a,a\n1,2" = Except.ok [[("a", "2")]] ∧
    (csvCells "a,a").get? 0 = some "a" ∧
    (csvCells "1,2").getD 0 "" = "1" ∧
    lookupKey [(("a" : String), ("2" : String))] "a" ≠ some "1" :=
  ⟨rfl, rfl, rfl, by decide⟩

/-- Witness for `C7_csv_rows` on the duplicate-free input `a,b` / `1,2`. -/
theorem C7_witness :
    ([[("a", "1"), ("b", "2")]] : List Row).length =
      (nonBlankLines "a,b\n1,2").length - 1 ∧
    lookupKey [(("a" : String), ("1" : String)), ("b", "2")] "a" = some "1" ∧
    lookupKey [(("a" : String), ("1" : String)), ("b", "2")] "b" = some "2" := by
  have h := C7_csv_rows "a,b\n1,2" [[("a", "1"), ("b", "2")]] (by rfl)
  obtain ⟨hlen, hforall⟩ := h
  obtain ⟨hl, rest, line, hsplit, hline, hlook⟩ :=
    hforall [("a", "1"), ("b", "2")] (by simp)
  rw [show nonBlankLines "a,b\n1,2" = ["a,b", "1,2"] from rfl] at hsplit
  injection hsplit with e1 e2
  subst e1
  subst e2
  rw [List.mem_singleton] at hline
  subst hline
  exact ⟨hlen, (hlook 0 "a" (by rfl) (by decide)).trans rfl,
    (hlook 1 "b" (by rfl) (by decide)).trans rfl⟩

/-- **C8** (confirmed).  Both extractors are pure functions of their text
and specification inputs in this embedding — faithful to the source, where
the pattern record is rebuilt locally on every call and no state survives
between calls — so two runs on identical inputs return identical result
sequences (same rows, same key order, same values). -/
theorem C8_deterministic (compile : String → Option JSRegex)
    (text patternString csvText : String) :
    extractDataFromText compile text patternString =
      extractDataFromText compile text patternString ∧
    extractDataFromCsv csvText = extractDataFromCsv csvText :=
  ⟨rfl, rfl⟩

/-- **C9** (corrected).  Every produced row is, PROVIDED no user pattern is
named `line_number` or `raw_text`, exactly the matched pattern fields in
pattern-record order followed by `line_number` (the 1-based line index as a
string) and then `raw_text` (the original untrimmed line), and a row exists
only when at least one pattern matched.  (A user pattern with a reserved
name is overwritten in place instead, breaking this order.) -/
theorem C9_row_field_order (compile : String → Option JSRegex)
    (text patternString : String) (rows : List Row) (row : Row)
    (h : extractDataFromText compile text patternString = Except.ok rows)
    (hrow : row ∈ rows)
    (h1 : "line_number" ∉ (parsePatterns compile patternString).map Prod.fst)
    (h2 : "raw_text" ∉ (parsePatterns compile patternString).map Prod.fst) :
    ∃ j line, (nonBlankLines text).get? j = some line ∧
      matchedPairs (parsePatterns compile patternString) line ≠ [] ∧
      row = matchedPairs (parsePatterns compile patternString) line ++
        [("line_number", toString (j + 1)), ("raw_text", line)] := by
  have hnd := parsePatterns_keys_nodup compile patternString
  rw [extractDataFromText_ok compile text patternString rows h] at hrow
  obtain ⟨j, line, hget, hpl⟩ := mem_extractRows _ _ 0 row hrow
  rw [Nat.zero_add] at hpl
  rw [processLine_eq _ _ _ hnd] at hpl
  by_cases hie : (matchedPairs (parsePatterns compile patternString) line).isEmpty
  · rw [if_pos hie] at hpl
    exact absurd hpl (by simp)
  · rw [if_neg hie] at hpl
    have hmne : matchedPairs (parsePatterns compile patternString) line ≠ [] :=
      fun he => hie (by simp [he])
    have hrq := (Option.some.inj hpl).symm
    have hsub := matchedPairs_keys_sublist (parsePatterns compile patternString) line
    have hln : "line_number" ∉
        (matchedPairs (parsePatterns compile patternString) line).map Prod.fst :=
      fun hmem => h1 (hsub.subset hmem)
    have hrt1 : "raw_text" ∉
        (matchedPairs (parsePatterns compile patternString) line).map Prod.fst :=
      fun hmem => h2 (hsub.subset hmem)
    rw [upsert_of_not_mem _ _ _ hln] at hrq
    have hrt2 : "raw_text" ∉
        ((matchedPairs (parsePatterns compile patternString) line ++
          [("line_number", toString (j + 1))]).map Prod.fst) := by
      rw [List.map_append]
      simp only [List.mem_append]
      push_neg
      exact ⟨hrt1, by simp⟩
    rw [upsert_of_not_mem _ _ _ hrt2] at hrq
    exact ⟨j, line, hget, hmne, by rw [hrq, List.append_assoc]; rfl⟩

/-- **C9** counterexample: with a user pattern named `raw_text`, the final
`raw_text` write updates the matched field in place, so the produced row's
keys are `[raw_text, line_number]` — not the matched fields followed by
`line_number` and then `raw_text` as the claim requires. -/
theorem C9_counterexample :
    extractDataFromText demoCompile "xfoo" "raw_text: foo" =
      Except.ok [[("raw_text", "xfoo"), ("line_number", "1")]] ∧
    matchedPairs (parsePatterns demoCompile "raw_text: foo") "xfoo" =
      [("raw_text", "foo")] ∧
    ([("raw_text", "xfoo"), ("line_number", "1")] : Row).map Prod.fst ≠
      ([("raw_text", "foo")] : Row).map Prod.fst ++ ["line_number", "raw_text"] :=
  ⟨rfl, rfl, by decide⟩

/-- Witness for `C9_row_field_order` on the pattern `name: (\w+)` and the
single line `Alice`. -/
theorem C9_witness :
    matchedPairs (parsePatterns demoCompile "name: (\\w+)") "Alice" ≠ [] ∧
    ([("name", "Alice"), ("line_number", "1"), ("raw_text", "Alice")] : Row) =
      matchedPairs (parsePatterns demoCompile "name: (\\w+)") "Alice" ++
        [("line_number", toString (0 + 1)), ("raw_text", "Alice")] := by
  obtain ⟨j, line, hget, hne, heq⟩ := C9_row_field_order demoCompile "Alice"
    "name: (\\w+)"
    [[("name", "Alice"), ("line_number", "1"), ("raw_text", "Alice")]]
    [("name", "Alice"), ("line_number", "1"), ("raw_text", "Alice")]
    (by rfl) (by simp)
    (by rw [show parsePatterns demoCompile "name: (\\w+)" =
          [("name", regexWordPlus)] from rfl]
        decide)
    (by rw [show parsePatterns demoCompile "name: (\\w+)" =
          [("name", regexWordPlus)] from rfl]
        decide)
  rw [show nonBlankLines "Alice" = ["Alice"] from rfl] at hget
  cases j with
  | zero =>
    have hline : line = "Alice" := by simpa using hget.symm
    subst hline
    exact ⟨hne, heq⟩
  | succ j' => simp at hget

/-- **C10** (confirmed).  Every row produced by the delimited-text
extractor has key set exactly the set of header names (cells beyond the
header count are discarded), and looking up a header name returns the cell
at the LAST column position bearing that name — i.e. under duplicate header
cells the later column's value overwrites the earlier one. -/
theorem C10_csv_key_set (text : String) (rows : List Row) (row : Row)
    (h : extractDataFromCsv text = Except.ok rows) (hrow : row ∈ rows) :
    ∃ headerLine rest line,
      nonBlankLines text = headerLine :: rest ∧ line ∈ rest ∧
      (∀ n, n ∈ row.map Prod.fst ↔ n ∈ csvCells headerLine) ∧
      (∀ n, lookupKey row n = (lastIdxFrom n 0 (csvCells headerLine)).map
        (fun j => (csvCells line).getD j "")) := by
  obtain ⟨hl, rest, hsplit, hrows⟩ := extractDataFromCsv_ok text rows h
  rw [hrows] at hrow
  obtain ⟨line, hline, hbuild⟩ := List.mem_map.mp hrow
  refine ⟨hl, rest, line, hsplit, hline, ?_, ?_⟩
  · intro n
    rw [← hbuild, mem_keys_buildRow]
    simp
  · intro n
    rw [← hbuild, lookupKey_buildRow]
    cases hli : lastIdxFrom n 0 (csvCells hl) with
    | some j => simp
    | none => simp [lookupKey]

/-- Witness for `C10_csv_key_set` on the duplicated header `a,b,a` with
data line `1,2,3`: the key set is `{a, b}` and `a` holds the last column's
value `3`. -/
theorem C10_witness :
    (("a" ∈ ([("a", "3"), ("b", "2")] : Row).map Prod.fst) ↔
      "a" ∈ csvCells "a,b,a") ∧
    lookupKey [(("a" : String), ("3" : String)), ("b", "2")] "a" =
      (lastIdxFrom "a" 0 (csvCells "a,b,a")).map
        (fun j => (csvCells "1,2,3").getD j "") := by
  obtain ⟨hl, rest, line, hsplit, hline, hkeys, hlook⟩ :=
    C10_csv_key_set "a,b,a\n1,2,3" [[("a", "3"), ("b", "2")]]
      [("a", "3"), ("b", "2")] (by rfl) (by simp)
  rw [show nonBlankLines "a,b,a\n1,2,3" = ["a,b,a", "1,2,3"] from rfl] at hsplit
  injection hsplit with e1 e2
  subst e1
  subst e2
  rw [List.mem_singleton] at hline
  subst hline
  exact ⟨hkeys "a", hlook "a"⟩
